import Mathlib

/-!
Verification of the ICT metadata model (`src/ict/metadata/objects.py`).

Strings are embedded as `List Char`.  Python's `str.split(sep)` for a
one-character separator keeps empty segments and is embedded as `splitP`
below.  Python's `str.startswith` is `listStartsWith`.  The `pydantic`
validation pipeline of the `Metadata` model is embedded as an explicit
field-by-field pipeline in declaration order (`Metadata.build`), followed
by the `model_validator(mode="after")` hook `default_title`
(`Metadata.validate`).  The container regex is embedded as a regular
expression with character classes and a Brzozowski-derivative matcher,
together with Python `re.match` anchoring semantics (the trailing `$` of
the pattern also matches just before a newline that ends the string).
-/

deriving instance DecidableEq for Except

namespace ICT

/-- Strings of the embedded program. -/
abbrev Str := List Char

/-- Python `str.split` on a separator predicate holding of single
characters: splits on every separator occurrence and keeps empty
segments, so `splitP p s` always has length `countP p s + 1`.  Python
`"".split(sep) = [""]` corresponds to `splitP p [] = [[]]`. -/
def splitP (p : Char → Bool) : Str → List Str
  | [] => [[]]
  | c :: cs =>
    if p c then [] :: splitP p cs
    else
      match splitP p cs with
      | [] => [[c]]
      | h :: t => (c :: h) :: t

/-- Python `value.split(sep)` for a one-character separator `sep`. -/
def splitChar (sep : Char) (s : Str) : List Str :=
  splitP (fun c => c == sep) s

/-- Python `value.startswith(p)`. -/
def listStartsWith : Str → Str → Bool
  | [], _ => true
  | _ :: _, [] => false
  | p :: ps, c :: cs => p == c && listStartsWith ps cs

/-- Field names of the `Metadata` model, in declaration order. -/
inductive FieldName where
  | specVersion | name | version | container | entrypoint | title
  | description | author | contact | repository | documentation | citation
deriving DecidableEq, Repr

/-- Validation errors.  `typeError f` stands for the pydantic error
raised when field `f` cannot be populated (in particular a required key
missing from the input mapping); `formatError msg` stands for the
`ValueError` raised inside a `field_validator`, carrying the message of
the `raise` statement in the source. -/
inductive Err where
  | typeError (f : FieldName)
  | formatError (msg : String)
deriving DecidableEq, Repr

/-- The `Author` object: a pydantic `RootModel` wrapping one string. -/
structure Author where
  root : Str
deriving DecidableEq, Repr

/-- Embeds `Author.check_author`: raises unless
`len(value.split(" ")) == 2`. -/
def Author.check_author (value : Str) : Except Err Str :=
  if (splitChar (' ') value).length = 2 then .ok value
  else .error (.formatError ("The author must be in the format <first name> <last name>"))

/-- Constructing an `Author` runs the `root` field validator and wraps
the returned value. -/
def Author.construct (value : Str) : Except Err Author :=
  match Author.check_author value with
  | .error e => .error e
  | .ok v => .ok ⟨v⟩

/-- The `DOI` object: a pydantic `RootModel` wrapping one string. -/
structure DOI where
  root : Str
deriving DecidableEq, Repr

/-- Embeds `DOI.check_doi`: raises unless the value starts with `10.`,
then raises unless `len(value.split("/")) == 2`. -/
def DOI.check_doi (value : Str) : Except Err Str :=
  if ¬ (listStartsWith (("10.").toList) value = true) then
    .error (.formatError ("The DOI must start with 10."))
  else if ¬ ((splitChar ('/') value).length = 2) then
    .error (.formatError ("The DOI must be in the format <prefix>/<suffix>"))
  else .ok value

/-- Constructing a `DOI` runs the `root` field validator and wraps the
returned value. -/
def DOI.construct (value : Str) : Except Err DOI :=
  match DOI.check_doi value with
  | .error e => .error e
  | .ok v => .ok ⟨v⟩

/-- Universe of Python values an `Author` or `DOI` may be compared
against with `==`: its own type, `str`, or some unrelated type
(represented here by `int` and `None`). -/
inductive PyVal where
  | pystr (s : Str)
  | pyauthor (a : Author)
  | pydoi (d : DOI)
  | pyint (n : Int)
  | pynone
deriving DecidableEq

/-- Embeds `Author.__eq__`, a `singledispatchmethod` with overloads
registered for `str` and `Author`; every other comparand type falls to
the base implementation, which raises `TypeError`. -/
def Author.pyEq (self : Author) : PyVal → Except String Bool
  | .pystr s => .ok (self.root == s)
  | .pyauthor b => .ok (self.root == b.root)
  | _ => .error ("invalid type for comparison.")

/-- Embeds `DOI.__eq__`, a `singledispatchmethod` with overloads
registered for `str` and `DOI`; every other comparand type raises
`TypeError`. -/
def DOI.pyEq (self : DOI) : PyVal → Except String Bool
  | .pystr s => .ok (self.root == s)
  | .pydoi d => .ok (self.root == d.root)
  | _ => .error ("invalid type for comparison.")

/-- Regular expressions over characters, with character classes, as
needed for the container pattern of the source. -/
inductive RE where
  | empt
  | eps
  | cls (p : Char → Bool)
  | alt (a b : RE)
  | cat (a b : RE)
  | star (a : RE)

/-- Whether a regular expression accepts the empty string. -/
def RE.nullable : RE → Bool
  | .empt => false
  | .eps => true
  | .cls _ => false
  | .alt a b => a.nullable || b.nullable
  | .cat a b => a.nullable && b.nullable
  | .star _ => true

/-- Brzozowski derivative of a regular expression by one character. -/
def RE.deriv : RE → Char → RE
  | .empt, _ => .empt
  | .eps, _ => .empt
  | .cls p, c => if p c then .eps else .empt
  | .alt a b, c => .alt (a.deriv c) (b.deriv c)
  | .cat a b, c =>
    if a.nullable then .alt (.cat (a.deriv c) b) (b.deriv c)
    else .cat (a.deriv c) b
  | .star a, c => .cat (a.deriv c) (.star a)

/-- Derivative-based matcher: whether `r` accepts exactly `s`. -/
def reMatch (r : RE) (s : Str) : Bool :=
  (s.foldl RE.deriv r).nullable

/-- Language of a regular expression. -/
inductive Lang : RE → Str → Prop where
  | eps : Lang .eps []
  | cls {p : Char → Bool} {c : Char} : p c = true → Lang (.cls p) [c]
  | altL {a b : RE} {s : Str} : Lang a s → Lang (.alt a b) s
  | altR {a b : RE} {s : Str} : Lang b s → Lang (.alt a b) s
  | cat {a b : RE} {s t : Str} : Lang a s → Lang b t → Lang (.cat a b) (s ++ t)
  | starNil {a : RE} : Lang (.star a) []
  | starCat {a : RE} {s t : Str} :
      Lang a s → Lang (.star a) t → Lang (.star a) (s ++ t)

/-- The character class `[a-zA-Z]`. -/
def isLetter (c : Char) : Bool :=
  (('a' ≤ c) && (c ≤ 'z')) || (('A' ≤ c) && (c ≤ 'Z'))

/-- The character class `[a-zA-Z_\-]`. -/
def isRepoChar (c : Char) : Bool :=
  isLetter c || (c == '_') || (c == '-')

/-- The character class `[a-zA-Z0-9_\.]`. -/
def isTagChar (c : Char) : Bool :=
  isLetter c || (('0' ≤ c) && (c ≤ '9')) || (c == '_') || (c == '.')

/-- One-or-more repetition of a character class, `[...]+`. -/
def plusRE (p : Char → Bool) : RE :=
  .cat (.cls p) (.star (.cls p))

/-- The pattern `\/{0,1}`: at most one slash. -/
def slashOpt : RE :=
  .alt .eps (.cls (fun c => c == '/'))

/-- The source pattern `^[a-zA-Z]*\/{0,1}[a-zA-Z_\-]+:[a-zA-Z0-9_\.]+$`
from `Metadata.check_container`, without the anchors (anchoring is the
matcher's concern). -/
def containerRE : RE :=
  .cat (.star (.cls isLetter))
    (.cat slashOpt
      (.cat (plusRE isRepoChar)
        (.cat (.cls (fun c => c == ':')) (plusRE isTagChar))))

/-- Python `bool(re.match(pat, s))` for a pattern of the form `^...$`:
the match is anchored at the start, and the final `$` matches at the end
of the string or just before a newline that ends the string.  Hence the
regex must accept the whole string, or the whole string minus one
trailing newline character. -/
def pyRegexMatch (r : RE) (s : Str) : Bool :=
  reMatch r s ||
    (match s.getLast? with
     | some c => (c == '\n') && reMatch r s.dropLast
     | none => false)

/-- Opaque validated version value (`ict.version.Version`), an external
collaborator whose parsing is out of scope. -/
structure Version where
  val : Str
deriving DecidableEq, Repr

/-- Opaque validated e-mail value (pydantic `EmailStr`). -/
structure EmailStr where
  val : Str
deriving DecidableEq, Repr

/-- Opaque validated URL value (pydantic `AnyHttpUrl`). -/
structure AnyHttpUrl where
  val : Str
deriving DecidableEq, Repr

/-- The `entrypoint` field type `Union[EntrypointPath, str]`. -/
inductive Entrypoint where
  | path (p : Str)
  | str (s : Str)
deriving DecidableEq, Repr

/-- The `contact` field type `Union[EmailStr, AnyHttpUrl]`. -/
inductive Contact where
  | email (e : EmailStr)
  | url (u : AnyHttpUrl)
deriving DecidableEq, Repr

/-- The validated `Metadata` model, with fields in declaration order. -/
structure Metadata where
  specVersion : Version
  name : Str
  version : Version
  container : Str
  entrypoint : Entrypoint
  title : Option Str
  description : Option Str
  author : List Author
  contact : Option Contact
  repository : AnyHttpUrl
  documentation : Option AnyHttpUrl
  citation : Option DOI
deriving DecidableEq, Repr

/-- The raw input mapping for `Metadata`.  An outer `none` means the key
is absent from the mapping; for nullable fields the inner `Option`
carries an explicit null.  Values of external types (version, URL,
e-mail, entrypoint) appear already coerced, since their parsing is an
external collaborator. -/
structure RawFields where
  specVersion : Option Version
  name : Option Str
  version : Option Version
  container : Option Str
  entrypoint : Option Entrypoint
  title : Option (Option Str)
  description : Option (Option Str)
  author : Option (List Str)
  contact : Option (Option Contact)
  repository : Option AnyHttpUrl
  documentation : Option (Option AnyHttpUrl)
  citation : Option (Option Str)
deriving DecidableEq, Repr

/-- Embeds `Metadata.check_name`: raises unless
`len(value.split("/")) in [2, 3]`. -/
def Metadata.check_name (value : Str) : Except Err Str :=
  if (splitChar ('/') value).length ∈ [2, 3] then .ok value
  else .error (.formatError ("The name must be in the format <organization/user>/<ICT name>"))

/-- Embeds `Metadata.check_container`: raises unless
`re.match(r"^[a-zA-Z]*\/{0,1}[a-zA-Z_\-]+:[a-zA-Z0-9_\.]+$", value)`
matches.  (The error message of the source really does start with
`The name`.) -/
def Metadata.check_container (value : Str) : Except Err Str :=
  if pyRegexMatch containerRE value then .ok value
  else .error (.formatError ("The name must be in the format <registry path>/<image repository>:<tag>"))

/-- Each element of the `author` list is constructed independently; the
first failing element aborts validation. -/
def constructAuthors : List Str → Except Err (List Author)
  | [] => .ok []
  | s :: rest =>
    match Author.construct s with
    | .error e => .error e
    | .ok a =>
      match constructAuthors rest with
      | .error e => .error e
      | .ok as => .ok (a :: as)

/-- The nullable `citation` field: an explicit null passes through, a
string is constructed as a `DOI`. -/
def buildCitation : Option Str → Except Err (Option DOI)
  | none => .ok none
  | some s =>
    match DOI.construct s with
    | .error e => .error e
    | .ok d => .ok (some d)

/-- Field-by-field construction of a `Metadata` record, in pydantic
declaration order: required fields whose key is absent fail with a
`typeError`; optional fields with default `None` fall back to null when
absent (`Option.join`); the custom `field_validator` checks run on
`name`, `container`, each `author` element and `citation`.  This is
everything pydantic does before the `model_validator(mode="after")`
hook. -/
def Metadata.build (r : RawFields) : Except Err Metadata :=
  match r.specVersion with
  | none => .error (.typeError .specVersion)
  | some sv =>
  match r.name with
  | none => .error (.typeError .name)
  | some nm =>
  match Metadata.check_name nm with
  | .error e => .error e
  | .ok nmv =>
  match r.version with
  | none => .error (.typeError .version)
  | some vr =>
  match r.container with
  | none => .error (.typeError .container)
  | some ct =>
  match Metadata.check_container ct with
  | .error e => .error e
  | .ok ctv =>
  match r.entrypoint with
  | none => .error (.typeError .entrypoint)
  | some ep =>
  match r.author with
  | none => .error (.typeError .author)
  | some au =>
  match constructAuthors au with
  | .error e => .error e
  | .ok auths =>
  match r.contact with
  | none => .error (.typeError .contact)
  | some co =>
  match r.repository with
  | none => .error (.typeError .repository)
  | some rp =>
  match r.citation with
  | none => .error (.typeError .citation)
  | some ci =>
  match buildCitation ci with
  | .error e => .error e
  | .ok cit =>
    .ok { specVersion := sv, name := nmv, version := vr, container := ctv,
          entrypoint := ep, title := r.title.join,
          description := r.description.join, author := auths, contact := co,
          repository := rp, documentation := r.documentation.join,
          citation := cit }

/-- Embeds `Metadata.default_title`, the `model_validator(mode="after")`
hook: if `title` is null it is set to `name`. -/
def Metadata.default_title (m : Metadata) : Metadata :=
  if m.title = none then { m with title := some m.name } else m

/-- Full validation of a raw input mapping: pydantic field construction
followed by the after-hook. -/
def Metadata.validate (r : RawFields) : Except Err Metadata :=
  match Metadata.build r with
  | .error e => .error e
  | .ok m => .ok (Metadata.default_title m)

/-- The field values of an already validated record, viewed again as a
raw input mapping (every key present, nullable fields carrying their
current value). -/
def Metadata.toRaw (m : Metadata) : RawFields :=
  { specVersion := some m.specVersion, name := some m.name,
    version := some m.version, container := some m.container,
    entrypoint := some m.entrypoint, title := some m.title,
    description := some m.description,
    author := some (m.author.map Author.root), contact := some m.contact,
    repository := some m.repository, documentation := some m.documentation,
    citation := some (m.citation.map DOI.root) }

/-- Only the empty string can inhabit a language while being empty:
`nullable` is complete. -/
theorem Lang.nullable_of_nil {r : RE} {s : Str} (h : Lang r s) :
    s = [] → r.nullable = true := by
  induction h with
  | eps => intro _; rfl
  | cls hp => intro hs; simp at hs
  | altL h ih => intro hs; simp [RE.nullable, ih hs]
  | altR h ih => intro hs; simp [RE.nullable, ih hs]
  | cat h1 h2 ih1 ih2 =>
    intro hs
    rcases List.append_eq_nil.mp hs with ⟨hs1, hs2⟩
    simp [RE.nullable, ih1 hs1, ih2 hs2]
  | starNil => intro _; rfl
  | starCat h1 h2 ih1 ih2 => intro _; rfl

/-- The `nullable` test decides membership of the empty string. -/
theorem RE.nullable_iff (r : RE) : r.nullable = true ↔ Lang r [] := by
  constructor
  · intro h
    induction r with
    | empt => simp [RE.nullable] at h
    | eps => exact .eps
    | cls p => simp [RE.nullable] at h
    | alt a b iha ihb =>
      simp only [RE.nullable, Bool.or_eq_true] at h
      rcases h with h | h
      · exact .altL (iha h)
      · exact .altR (ihb h)
    | cat a b iha ihb =>
      simp only [RE.nullable, Bool.and_eq_true] at h
      have := Lang.cat (iha h.1) (ihb h.2)
      simpa using this
    | star a ih => exact .starNil
  · intro h
    exact Lang.nullable_of_nil h rfl

/-- Soundness of the Brzozowski derivative: a word of the derivative by
`c`, prefixed with `c`, is a word of the original expression. -/
theorem RE.deriv_sound {r : RE} {c : Char} {s : Str}
    (h : Lang (r.deriv c) s) : Lang r (c :: s) := by
  induction r generalizing s with
  | empt => exact nomatch h
  | eps => exact nomatch h
  | cls p =>
    simp only [RE.deriv] at h
    by_cases hp : p c = true
    · rw [if_pos hp] at h
      cases h
      exact Lang.cls hp
    · rw [if_neg hp] at h
      exact nomatch h
  | alt a b iha ihb =>
    simp only [RE.deriv] at h
    cases h with
    | altL h => exact .altL (iha h)
    | altR h => exact .altR (ihb h)
  | cat a b iha ihb =>
    simp only [RE.deriv] at h
    by_cases hn : a.nullable = true
    · rw [if_pos hn] at h
      cases h with
      | altL h =>
        cases h with
        | cat h1 h2 =>
          have := Lang.cat (iha h1) h2
          simpa using this
      | altR h =>
        have ha0 : Lang a [] := (RE.nullable_iff a).mp hn
        have := Lang.cat ha0 (ihb h)
        simpa using this
    · rw [if_neg hn] at h
      cases h with
      | cat h1 h2 =>
        have := Lang.cat (iha h1) h2
        simpa using this
  | star a iha =>
    simp only [RE.deriv] at h
    cases h with
    | cat h1 h2 =>
      have := Lang.starCat (iha h1) h2
      simpa using this

/-- Completeness of the Brzozowski derivative: a word starting with `c`,
with `c` removed, is a word of the derivative by `c`. -/
theorem RE.deriv_complete {r : RE} {l : Str} (h : Lang r l) :
    ∀ {c : Char} {s : Str}, l = c :: s → Lang (r.deriv c) s := by
  induction h with
  | eps => intro c s hl; simp at hl
  | cls hp =>
    intro c s hl
    injection hl with hc hs
    subst hc; subst hs
    simp only [RE.deriv]
    rw [if_pos hp]
    exact .eps
  | altL h ih =>
    intro c s hl
    simp only [RE.deriv]
    exact .altL (ih hl)
  | altR h ih =>
    intro c s hl
    simp only [RE.deriv]
    exact .altR (ih hl)
  | @cat a b u v h1 h2 ih1 ih2 =>
    intro c s hl
    cases u with
    | nil =>
      simp only [List.nil_append] at hl
      have hn : a.nullable = true := (RE.nullable_iff a).mpr h1
      simp only [RE.deriv]
      rw [if_pos hn]
      exact .altR (ih2 hl)
    | cons c0 u0 =>
      rw [List.cons_append] at hl
      injection hl with hc hs
      subst hc; subst hs
      have ha := ih1 rfl
      have hcat := Lang.cat ha h2
      simp only [RE.deriv]
      by_cases hn : a.nullable = true
      · rw [if_pos hn]; exact .altL hcat
      · rw [if_neg hn]; exact hcat
  | starNil => intro c s hl; simp at hl
  | @starCat a u v h1 h2 ih1 ih2 =>
    intro c s hl
    cases u with
    | nil =>
      simp only [List.nil_append] at hl
      exact ih2 hl
    | cons c0 u0 =>
      rw [List.cons_append] at hl
      injection hl with hc hs
      subst hc; subst hs
      have ha := ih1 rfl
      simp only [RE.deriv]
      exact Lang.cat ha h2

/-- Unfolding step of the matcher. -/
theorem reMatch_cons {r : RE} {c : Char} {s : Str} :
    reMatch r (c :: s) = reMatch (r.deriv c) s := rfl

/-- Correctness of the derivative matcher with respect to the language
semantics. -/
theorem reMatch_iff {r : RE} {s : Str} : reMatch r s = true ↔ Lang r s := by
  induction s generalizing r with
  | nil =>
    unfold reMatch
    simpa using RE.nullable_iff r
  | cons c cs ih =>
    rw [reMatch_cons]
    constructor
    · intro h
      exact RE.deriv_sound (ih.mp h)
    · intro h
      exact ih.mpr (RE.deriv_complete h rfl)

/-- Words of a starred character class consist of class characters. -/
theorem Lang.star_cls_all {r : RE} {s : Str} (h : Lang r s) :
    ∀ p : Char → Bool, r = .star (.cls p) → ∀ c ∈ s, p c = true := by
  induction h with
  | eps => intro p hp; exact RE.noConfusion hp
  | cls hq => intro p hp; exact RE.noConfusion hp
  | altL h ih => intro p hp; exact RE.noConfusion hp
  | altR h ih => intro p hp; exact RE.noConfusion hp
  | cat h1 h2 ih1 ih2 => intro p hp; exact RE.noConfusion hp
  | starNil => intro p hp c hc; simp at hc
  | @starCat a u v h1 h2 ih1 ih2 =>
    intro p hp c hc
    injection hp with ha
    subst ha
    cases h1 with
    | cls hpc =>
      rcases List.mem_append.mp hc with hc | hc
      · rw [List.mem_singleton] at hc
        subst hc
        exact hpc
      · exact ih2 p rfl c hc

/-- A word of class characters is a word of the starred class. -/
theorem Lang.all_star_cls {p : Char → Bool} {s : Str}
    (h : ∀ c ∈ s, p c = true) : Lang (.star (.cls p)) s := by
  induction s with
  | nil => exact .starNil
  | cons c cs ih =>
    have hc : Lang (RE.cls p) [c] := .cls (h c (by simp))
    have hcs : Lang (.star (.cls p)) cs := ih (fun d hd => h d (by simp [hd]))
    have := Lang.starCat hc hcs
    simpa using this

/-- The language of `[...]​*`. -/
theorem Lang_star_cls_iff {p : Char → Bool} {s : Str} :
    Lang (.star (.cls p)) s ↔ ∀ c ∈ s, p c = true :=
  ⟨fun h => Lang.star_cls_all h p rfl, Lang.all_star_cls⟩

/-- The language of `[...]+`: a nonempty word of class characters. -/
theorem Lang_plus_iff {p : Char → Bool} {s : Str} :
    Lang (plusRE p) s ↔ s ≠ [] ∧ ∀ c ∈ s, p c = true := by
  constructor
  · intro h
    simp only [plusRE] at h
    cases h with
    | @cat _ _ u v h1 h2 =>
      cases h1 with
      | cls hpc =>
        refine ⟨by simp, ?_⟩
        intro c hc
        rcases List.mem_append.mp hc with hc | hc
        · rw [List.mem_singleton] at hc
          subst hc
          exact hpc
        · exact Lang.star_cls_all h2 p rfl c hc
  · rintro ⟨hne, hall⟩
    cases s with
    | nil => exact absurd rfl hne
    | cons c cs =>
      have h1 : Lang (RE.cls p) [c] := .cls (hall c (by simp))
      have h2 : Lang (.star (.cls p)) cs :=
        Lang.all_star_cls (fun d hd => hall d (by simp [hd]))
      have := Lang.cat h1 h2
      simpa [plusRE] using this

/-- The language of `\/{0,1}`: the empty string or one slash. -/
theorem Lang_slashOpt_iff {s : Str} :
    Lang slashOpt s ↔ s = [] ∨ s = [('/')] := by
  constructor
  · intro h
    simp only [slashOpt] at h
    cases h with
    | altL h =>
      cases h
      exact Or.inl rfl
    | altR h =>
      cases h with
      | cls hc =>
        rename_i c0
        have hc0 : c0 = '/' := eq_of_beq hc
        subst hc0
        exact Or.inr rfl
  · rintro (rfl | rfl)
    · exact .altL .eps
    · exact .altR (.cls (by decide))

/-- The structural reading of the container pattern: an all-letters
registry (possibly empty), an optional single slash, a nonempty
repository over `[a-zA-Z_\-]`, a colon, and a nonempty tag over
`[a-zA-Z0-9_\.]`. -/
def ContainerShape (s : Str) : Prop :=
  ∃ R S P T, s = R ++ S ++ P ++ (':') :: T ∧
    (∀ c ∈ R, isLetter c = true) ∧ (S = [] ∨ S = [('/')]) ∧
    P ≠ [] ∧ (∀ c ∈ P, isRepoChar c = true) ∧
    T ≠ [] ∧ (∀ c ∈ T, isTagChar c = true)

/-- The language of the container pattern is exactly `ContainerShape`. -/
theorem Lang_container_iff {s : Str} :
    Lang containerRE s ↔ ContainerShape s := by
  constructor
  · intro h
    simp only [containerRE] at h
    cases h with
    | @cat _ _ R rest1 hR hrest1 =>
      cases hrest1 with
      | @cat _ _ S rest2 hS hrest2 =>
        cases hrest2 with
        | @cat _ _ P rest3 hP hrest3 =>
          cases hrest3 with
          | @cat _ _ Co T hCo hT =>
            cases hCo with
            | cls hc =>
              rename_i c0
              have hc0 : c0 = ':' := eq_of_beq hc
              subst hc0
              obtain ⟨hPne, hPall⟩ := Lang_plus_iff.mp hP
              obtain ⟨hTne, hTall⟩ := Lang_plus_iff.mp hT
              refine ⟨R, S, P, T, ?_,
                fun c hc2 => Lang.star_cls_all hR isLetter rfl c hc2,
                Lang_slashOpt_iff.mp hS, hPne, hPall, hTne, hTall⟩
              simp [List.append_assoc]
  · rintro ⟨R, S, P, T, rfl, hR, hS, hPne, hP, hTne, hT⟩
    have hLR : Lang (.star (.cls isLetter)) R := Lang.all_star_cls hR
    have hLS : Lang slashOpt S := Lang_slashOpt_iff.mpr hS
    have hLP : Lang (plusRE isRepoChar) P := Lang_plus_iff.mpr ⟨hPne, hP⟩
    have hLT : Lang (plusRE isTagChar) T := Lang_plus_iff.mpr ⟨hTne, hT⟩
    have hLc : Lang (RE.cls (fun c => c == ':')) ([(':')]) := .cls (by decide)
    have := Lang.cat hLR (Lang.cat hLS (Lang.cat hLP (Lang.cat hLc hLT)))
    simpa [containerRE, List.append_assoc] using this

/-- Python `re.match` anchoring, characterized: the regex must accept
the whole string, or the string ends in a newline and the regex accepts
everything before it. -/
theorem pyRegexMatch_iff {r : RE} {s : Str} :
    pyRegexMatch r s = true ↔
      (Lang r s ∨ (s.getLast? = some ('\n') ∧ Lang r s.dropLast)) := by
  unfold pyRegexMatch
  rcases hgl : s.getLast? with _ | c
  · simp [reMatch_iff]
  · simp [reMatch_iff, beq_iff_eq]

/-- The `check_container` validator succeeds exactly on container shapes
(with Python's trailing-newline allowance), returning its input. -/
theorem Metadata.check_container_ok_iff {v w : Str} :
    Metadata.check_container v = .ok w ↔
      ((ContainerShape v ∨ (v.getLast? = some ('\n') ∧ ContainerShape v.dropLast)) ∧
        w = v) := by
  have hcond : pyRegexMatch containerRE v = true ↔
      (ContainerShape v ∨ (v.getLast? = some ('\n') ∧ ContainerShape v.dropLast)) := by
    rw [pyRegexMatch_iff]
    simp [Lang_container_iff]
  unfold Metadata.check_container
  by_cases hm : pyRegexMatch containerRE v = true
  · rw [if_pos hm]
    simp only [Except.ok.injEq]
    constructor
    · intro h
      exact ⟨hcond.mp hm, h.symm⟩
    · rintro ⟨_, rfl⟩
      rfl
  · rw [if_neg hm]
    constructor
    · intro h
      exact Except.noConfusion h
    · rintro ⟨hs, rfl⟩
      exact absurd (hcond.mpr hs) hm

/-- Splitting never returns an empty list of segments. -/
theorem splitP_ne_nil (p : Char → Bool) (s : Str) : splitP p s ≠ [] := by
  induction s with
  | nil => simp [splitP]
  | cons c cs ih =>
    simp only [splitP]
    by_cases h : p c = true
    · rw [if_pos h]
      simp
    · rw [if_neg h]
      cases hsp : splitP p cs with
      | nil => exact absurd hsp ih
      | cons h0 t => simp

/-- The number of segments is the number of separators plus one, as for
Python `str.split` with an explicit separator. -/
theorem splitP_length (p : Char → Bool) (s : Str) :
    (splitP p s).length = s.countP p + 1 := by
  induction s with
  | nil => simp [splitP]
  | cons c cs ih =>
    by_cases h : p c = true
    · simp only [splitP, if_pos h, List.length_cons, List.countP_cons, h, if_true]
      omega
    · simp only [splitP, if_neg h]
      cases hsp : splitP p cs with
      | nil => exact absurd hsp (splitP_ne_nil p cs)
      | cons h0 t =>
        rw [hsp] at ih
        simp only [List.length_cons] at ih
        simp only [List.length_cons, List.countP_cons, if_neg h]
        omega

/-- Segment count of `splitChar` in terms of `List.count`. -/
theorem splitChar_length (sep : Char) (s : Str) :
    (splitChar sep s).length = s.count sep + 1 := by
  rw [List.count_eq_countP]
  exact splitP_length _ s

/-- The author validator succeeds exactly when the value contains
exactly one space character, and returns its input. -/
theorem Author.check_author_ok_iff {s w : Str} :
    Author.check_author s = .ok w ↔ s.count (' ') = 1 ∧ w = s := by
  unfold Author.check_author
  have hl := splitChar_length (' ') s
  by_cases h : (splitChar (' ') s).length = 2
  · rw [if_pos h]
    simp only [Except.ok.injEq]
    constructor
    · intro hw
      exact ⟨by omega, hw.symm⟩
    · rintro ⟨_, rfl⟩
      rfl
  · rw [if_neg h]
    constructor
    · intro hh
      exact Except.noConfusion hh
    · rintro ⟨hc, hws⟩
      exact absurd (by omega) h

/-- Constructing an `Author` succeeds exactly when the value contains
exactly one space character. -/
theorem Author.construct_author_ok_iff {s : Str} {a : Author} :
    Author.construct s = .ok a ↔ s.count (' ') = 1 ∧ a = ⟨s⟩ := by
  unfold Author.construct
  cases hch : Author.check_author s with
  | error e =>
    constructor
    · intro h
      exact Except.noConfusion h
    · rintro ⟨hc, rfl⟩
      have hok : Author.check_author s = .ok s := Author.check_author_ok_iff.mpr ⟨hc, rfl⟩
      rw [hch] at hok
      exact Except.noConfusion hok
  | ok v =>
    obtain ⟨hc, rfl⟩ := Author.check_author_ok_iff.mp hch
    simp only [Except.ok.injEq]
    constructor
    · intro h
      exact ⟨hc, h.symm⟩
    · rintro ⟨_, rfl⟩
      rfl

/-- The DOI validator succeeds exactly when the value starts with `10.`
and contains exactly one slash, and returns its input. -/
theorem DOI.check_doi_ok_iff {s w : Str} :
    DOI.check_doi s = .ok w ↔
      (listStartsWith (("10.").toList) s = true ∧ s.count ('/') = 1) ∧ w = s := by
  unfold DOI.check_doi
  have hl := splitChar_length ('/') s
  by_cases h1 : listStartsWith (("10.").toList) s = true
  · rw [if_neg (not_not_intro h1)]
    by_cases h2 : (splitChar ('/') s).length = 2
    · rw [if_neg (not_not_intro h2)]
      simp only [Except.ok.injEq]
      constructor
      · intro hw
        exact ⟨⟨h1, by omega⟩, hw.symm⟩
      · rintro ⟨_, rfl⟩
        rfl
    · rw [if_pos h2]
      constructor
      · intro hh
        exact Except.noConfusion hh
      · rintro ⟨⟨_, hc⟩, hws⟩
        exact absurd (by omega) h2
  · rw [if_pos h1]
    constructor
    · intro hh
      exact Except.noConfusion hh
    · rintro ⟨⟨hs, _⟩, rfl⟩
      exact absurd hs h1

/-- Constructing a `DOI` succeeds exactly when the value starts with
`10.` and contains exactly one slash. -/
theorem DOI.construct_doi_ok_iff {s : Str} {d : DOI} :
    DOI.construct s = .ok d ↔
      (listStartsWith (("10.").toList) s = true ∧ s.count ('/') = 1) ∧ d = ⟨s⟩ := by
  unfold DOI.construct
  cases hch : DOI.check_doi s with
  | error e =>
    constructor
    · intro h
      exact Except.noConfusion h
    · rintro ⟨hc, rfl⟩
      have hok : DOI.check_doi s = .ok s := DOI.check_doi_ok_iff.mpr ⟨hc, rfl⟩
      rw [hch] at hok
      exact Except.noConfusion hok
  | ok v =>
    obtain ⟨hc, rfl⟩ := DOI.check_doi_ok_iff.mp hch
    simp only [Except.ok.injEq]
    constructor
    · intro h
      exact ⟨hc, h.symm⟩
    · rintro ⟨_, rfl⟩
      rfl

/-- When the value does not start with `10.`, the DOI constructor fails
with the prefix-check error, whatever the slash count is. -/
theorem DOI.construct_err_nostart {s : Str}
    (h : listStartsWith (("10.").toList) s = false) :
    DOI.construct s = .error (.formatError ("The DOI must start with 10.")) := by
  unfold DOI.construct DOI.check_doi
  have hcond : ¬ (listStartsWith (("10.").toList) s = true) := by
    rw [h]
    simp
  rw [if_pos hcond]

/-- The name validator succeeds exactly when the value contains one or
two slashes, and returns its input. -/
theorem Metadata.check_name_ok_iff {v w : Str} :
    Metadata.check_name v = .ok w ↔
      (v.count ('/') = 1 ∨ v.count ('/') = 2) ∧ w = v := by
  unfold Metadata.check_name
  have hl := splitChar_length ('/') v
  by_cases h : (splitChar ('/') v).length ∈ [2, 3]
  · rw [if_pos h]
    simp only [List.mem_cons, List.mem_singleton, List.not_mem_nil, or_false] at h
    simp only [Except.ok.injEq]
    constructor
    · intro hw
      exact ⟨by omega, hw.symm⟩
    · rintro ⟨_, rfl⟩
      rfl
  · rw [if_neg h]
    simp only [List.mem_cons, List.mem_singleton, List.not_mem_nil, or_false] at h
    constructor
    · intro hh
      exact Except.noConfusion hh
    · rintro ⟨hc, hwv⟩
      refine absurd ?_ h
      rcases hc with hc | hc
      · left
        omega
      · right
        omega

/-- The author-list construction succeeds exactly when every element
contains exactly one space, and the produced objects wrap exactly the
input strings. -/
theorem constructAuthors_ok_iff {l : List Str} {as : List Author} :
    constructAuthors l = .ok as ↔
      (as.map Author.root = l ∧ ∀ s ∈ l, s.count (' ') = 1) := by
  induction l generalizing as with
  | nil =>
    simp only [constructAuthors, List.not_mem_nil, false_implies, implies_true, and_true]
    constructor
    · intro h
      injection h with h
      subst h
      rfl
    · intro hmap
      cases as with
      | nil => rfl
      | cons a0 as0 => simp at hmap
  | cons s rest ih =>
    simp only [constructAuthors]
    cases hac : Author.construct s with
    | error e =>
      constructor
      · intro h
        exact Except.noConfusion h
      · rintro ⟨hmap, hall⟩
        have h1 : s.count (' ') = 1 := hall s (by simp)
        have hok : Author.construct s = .ok ⟨s⟩ := Author.construct_author_ok_iff.mpr ⟨h1, rfl⟩
        rw [hac] at hok
        exact Except.noConfusion hok
    | ok a =>
      obtain ⟨h1, rfl⟩ := Author.construct_author_ok_iff.mp hac
      cases har : constructAuthors rest with
      | error e =>
        constructor
        · intro h
          exact Except.noConfusion h
        · rintro ⟨hmap, hall⟩
          cases as with
          | nil => simp at hmap
          | cons a0 as0 =>
            simp only [List.map_cons, List.cons.injEq] at hmap
            obtain ⟨ha0, hmap0⟩ := hmap
            have hok : constructAuthors rest = .ok as0 :=
              ih.mpr ⟨hmap0, fun t ht => hall t (by simp [ht])⟩
            rw [har] at hok
            exact Except.noConfusion hok
      | ok as1 =>
        obtain ⟨hmap1, hall1⟩ := ih.mp har
        constructor
        · intro h
          injection h with h
          subst h
          refine ⟨by simp [hmap1], ?_⟩
          intro t ht
          rcases List.mem_cons.mp ht with rfl | ht
          · exact h1
          · exact hall1 t ht
        · rintro ⟨hmap, hall⟩
          cases as with
          | nil => simp at hmap
          | cons a0 as0 =>
            simp only [List.map_cons, List.cons.injEq] at hmap
            obtain ⟨ha0, hmap0⟩ := hmap
            have hok : constructAuthors rest = .ok as0 :=
              ih.mpr ⟨hmap0, fun t ht => hall t (by simp [ht])⟩
            rw [har] at hok
            injection hok with hok
            subst hok
            cases a0 with
            | mk r0 =>
              have hr : r0 = s := ha0
              subst hr
              rfl

/-- The citation step succeeds exactly on an explicit null or a valid
DOI string. -/
theorem buildCitation_ok_iff {ci : Option Str} {oc : Option DOI} :
    buildCitation ci = .ok oc ↔
      ((ci = none ∧ oc = none) ∨
        ∃ s, ci = some s ∧ listStartsWith (("10.").toList) s = true ∧
          s.count ('/') = 1 ∧ oc = some ⟨s⟩) := by
  cases ci with
  | none =>
    simp only [buildCitation]
    constructor
    · intro h
      injection h with h
      exact Or.inl ⟨by simp, h.symm⟩
    · rintro (⟨_, rfl⟩ | ⟨s, hs, _⟩)
      · rfl
      · exact Option.noConfusion hs
  | some s =>
    simp only [buildCitation]
    cases hdc : DOI.construct s with
    | error e =>
      constructor
      · intro h
        exact Except.noConfusion h
      · rintro (⟨hn, _⟩ | ⟨t, ht, h1, h2, rfl⟩)
        · exact Option.noConfusion hn
        · injection ht with ht
          subst ht
          have hok : DOI.construct s = .ok ⟨s⟩ := DOI.construct_doi_ok_iff.mpr ⟨⟨h1, h2⟩, rfl⟩
          rw [hdc] at hok
          exact Except.noConfusion hok
    | ok d =>
      obtain ⟨⟨h1, h2⟩, rfl⟩ := DOI.construct_doi_ok_iff.mp hdc
      constructor
      · intro h
        injection h with h
        subst h
        exact Or.inr ⟨s, rfl, h1, h2, rfl⟩
      · rintro (⟨hn, _⟩ | ⟨t, ht, _, _, rfl⟩)
        · exact Option.noConfusion hn
        · injection ht with ht
          subst ht
          rfl

/-- The name validator returns its input on success. -/
theorem Metadata.check_name_ok_val {v w : Str}
    (h : Metadata.check_name v = .ok w) : w = v :=
  (Metadata.check_name_ok_iff.mp h).2

/-- The container validator returns its input on success. -/
theorem Metadata.check_container_ok_val {v w : Str}
    (h : Metadata.check_container v = .ok w) : w = v :=
  (Metadata.check_container_ok_iff.mp h).2

/-- Every fact established by a successful construction: which raw keys
were present, which validators passed, and how every field of the built
record is determined by the raw input. -/
theorem Metadata.build_ok_elim {r : RawFields} {m : Metadata}
    (h : Metadata.build r = .ok m) :
    r.specVersion = some m.specVersion ∧
    r.name = some m.name ∧ Metadata.check_name m.name = .ok m.name ∧
    r.version = some m.version ∧
    r.container = some m.container ∧
    Metadata.check_container m.container = .ok m.container ∧
    r.entrypoint = some m.entrypoint ∧
    m.title = r.title.join ∧
    m.description = r.description.join ∧
    (∃ au, r.author = some au ∧ constructAuthors au = .ok m.author) ∧
    r.contact = some m.contact ∧
    r.repository = some m.repository ∧
    m.documentation = r.documentation.join ∧
    (∃ ci, r.citation = some ci ∧ buildCitation ci = .ok m.citation) := by
  obtain ⟨osv, onm, ovr, oct, oep, oti, ode, oau, oco, orp, odo, oci⟩ := r
  simp only [Metadata.build] at h
  cases osv with
  | none => simp at h
  | some sv =>
  dsimp only [] at h
  cases onm with
  | none => simp at h
  | some nm =>
  dsimp only [] at h
  cases hchknm : Metadata.check_name nm with
  | error e => rw [hchknm] at h; simp at h
  | ok nmv =>
  rw [hchknm] at h
  dsimp only [] at h
  cases ovr with
  | none => simp at h
  | some vr =>
  dsimp only [] at h
  cases oct with
  | none => simp at h
  | some ct =>
  dsimp only [] at h
  cases hchkct : Metadata.check_container ct with
  | error e => rw [hchkct] at h; simp at h
  | ok ctv =>
  rw [hchkct] at h
  dsimp only [] at h
  cases oep with
  | none => simp at h
  | some ep =>
  dsimp only [] at h
  cases oau with
  | none => simp at h
  | some au =>
  dsimp only [] at h
  cases hca : constructAuthors au with
  | error e => rw [hca] at h; simp at h
  | ok auths =>
  rw [hca] at h
  dsimp only [] at h
  cases oco with
  | none => simp at h
  | some co =>
  dsimp only [] at h
  cases orp with
  | none => simp at h
  | some rp =>
  dsimp only [] at h
  cases oci with
  | none => simp at h
  | some ci =>
  dsimp only [] at h
  cases hbc : buildCitation ci with
  | error e => rw [hbc] at h; simp at h
  | ok cit =>
  rw [hbc] at h
  dsimp only [] at h
  injection h with h
  subst h
  have hnmv := Metadata.check_name_ok_val hchknm
  subst hnmv
  have hctv := Metadata.check_container_ok_val hchkct
  subst hctv
  exact ⟨rfl, rfl, hchknm, rfl, rfl, hchkct, rfl, rfl, rfl, ⟨au, rfl, hca⟩,
    rfl, rfl, rfl, ⟨ci, rfl, hbc⟩⟩

/-- Converse of `build_ok_elim`: the listed facts force construction to
succeed with exactly the given record. -/
theorem Metadata.build_ok_intro {r : RawFields} {m : Metadata}
    (hsv : r.specVersion = some m.specVersion)
    (hnm : r.name = some m.name)
    (hchknm : Metadata.check_name m.name = .ok m.name)
    (hvr : r.version = some m.version)
    (hct : r.container = some m.container)
    (hchkct : Metadata.check_container m.container = .ok m.container)
    (hep : r.entrypoint = some m.entrypoint)
    (hti : r.title.join = m.title)
    (hde : r.description.join = m.description)
    (hau : ∃ au, r.author = some au ∧ constructAuthors au = .ok m.author)
    (hco : r.contact = some m.contact)
    (hrp : r.repository = some m.repository)
    (hdo : r.documentation.join = m.documentation)
    (hci : ∃ ci, r.citation = some ci ∧ buildCitation ci = .ok m.citation) :
    Metadata.build r = .ok m := by
  obtain ⟨au, hau1, hau2⟩ := hau
  obtain ⟨ci, hci1, hci2⟩ := hci
  obtain ⟨msv, mnm, mvr, mct, mep, mti, mde, mau, mco, mrp, mdo, mci⟩ := m
  simp only at hsv hnm hchknm hvr hct hchkct hep hti hde hau1 hau2 hco hrp hdo hci1 hci2
  simp only [Metadata.build, hsv, hnm, hchknm, hvr, hct, hchkct, hep, hau1, hau2,
    hco, hrp, hci1, hci2, hti, hde, hdo]

/-- Validation is construction followed by the title default. -/
theorem Metadata.validate_ok_iff {r : RawFields} {m : Metadata} :
    Metadata.validate r = .ok m ↔
      ∃ m0, Metadata.build r = .ok m0 ∧ m = Metadata.default_title m0 := by
  unfold Metadata.validate
  cases hb : Metadata.build r with
  | error e =>
    constructor
    · intro h
      exact Except.noConfusion h
    · rintro ⟨m0, hm0, rfl⟩
      exact Except.noConfusion hm0
  | ok m0 =>
    constructor
    · intro h
      injection h with h
      exact ⟨m0, rfl, h.symm⟩
    · rintro ⟨m1, hm1, rfl⟩
      injection hm1 with hm1
      subst hm1
      rfl

/-- The after-hook with a null title: the title becomes the name. -/
theorem Metadata.default_title_of_none {m : Metadata} (h : m.title = none) :
    Metadata.default_title m = { m with title := some m.name } := by
  unfold Metadata.default_title
  rw [if_pos h]

/-- The after-hook with a present title: the record is unchanged. -/
theorem Metadata.default_title_of_some {m : Metadata} {t : Str}
    (h : m.title = some t) : Metadata.default_title m = m := by
  unfold Metadata.default_title
  rw [if_neg (by simp [h])]

/-- After the hook, the title is always populated. -/
theorem Metadata.default_title_isSome (m : Metadata) :
    (Metadata.default_title m).title.isSome = true := by
  unfold Metadata.default_title
  by_cases h : m.title = none
  · rw [if_pos h]
    rfl
  · rw [if_neg h]
    cases ht : m.title with
    | none => exact absurd ht h
    | some t => simp [ht]

/-- Re-validating the root strings of already constructed authors
succeeds with the same objects. -/
theorem constructAuthors_roundtrip {l : List Str} {as : List Author}
    (h : constructAuthors l = .ok as) :
    constructAuthors (as.map Author.root) = .ok as := by
  obtain ⟨hmap, hall⟩ := constructAuthors_ok_iff.mp h
  rw [hmap]
  exact h

/-- Re-validating the root string of an already constructed citation
succeeds with the same object. -/
theorem buildCitation_roundtrip {ci : Option Str} {oc : Option DOI}
    (h : buildCitation ci = .ok oc) :
    buildCitation (oc.map DOI.root) = .ok oc := by
  rcases buildCitation_ok_iff.mp h with ⟨hci, rfl⟩ | ⟨s, hci, h1, h2, rfl⟩
  · rfl
  · have hd : DOI.construct s = .ok ⟨s⟩ := DOI.construct_doi_ok_iff.mpr ⟨⟨h1, h2⟩, rfl⟩
    simp only [Option.map, buildCitation]
    rw [hd]

/-- A failed construction makes validation fail with the same error. -/
theorem Metadata.validate_of_build_error {r : RawFields} {e : Err}
    (h : Metadata.build r = .error e) : Metadata.validate r = .error e := by
  unfold Metadata.validate
  rw [h]

/-- A successful construction makes validation succeed with the
after-hook applied. -/
theorem Metadata.validate_of_build_ok {r : RawFields} {m0 : Metadata}
    (h : Metadata.build r = .ok m0) :
    Metadata.validate r = .ok (Metadata.default_title m0) := by
  unfold Metadata.validate
  rw [h]

/-- The after-hook commutes with replacing the contact field. -/
theorem Metadata.default_title_set_contact (m0 : Metadata) (c : Option Contact) :
    Metadata.default_title { m0 with contact := c } =
      { Metadata.default_title m0 with contact := c } := by
  by_cases ht : m0.title = none
  · rw [Metadata.default_title_of_none (show ({ m0 with contact := c } : Metadata).title = none from ht),
      Metadata.default_title_of_none ht]
  · obtain ⟨t, ht2⟩ := Option.ne_none_iff_exists'.mp ht
    rw [Metadata.default_title_of_some (show ({ m0 with contact := c } : Metadata).title = some t from ht2),
      Metadata.default_title_of_some ht2]

/-- The after-hook commutes with replacing the citation field. -/
theorem Metadata.default_title_set_citation (m0 : Metadata) (d : Option DOI) :
    Metadata.default_title { m0 with citation := d } =
      { Metadata.default_title m0 with citation := d } := by
  by_cases ht : m0.title = none
  · rw [Metadata.default_title_of_none (show ({ m0 with citation := d } : Metadata).title = none from ht),
      Metadata.default_title_of_none ht]
  · obtain ⟨t, ht2⟩ := Option.ne_none_iff_exists'.mp ht
    rw [Metadata.default_title_of_some (show ({ m0 with citation := d } : Metadata).title = some t from ht2),
      Metadata.default_title_of_some ht2]

/-- A concrete valid version value for concrete runs. -/
def exVersion : Version := ⟨("0.1.0").toList⟩

/-- A concrete valid repository URL value for concrete runs. -/
def exUrl : AnyHttpUrl := ⟨("https://github.com/polusai/polus-plugins").toList⟩

/-- A concrete raw input mapping with every field valid, `title` absent,
and `contact`/`citation` explicitly null. -/
def exampleRaw : RawFields :=
  { specVersion := some exVersion,
    name := some (("wipp/threshold").toList),
    version := some ⟨("1.1.1").toList⟩,
    container := some (("wipp/threshold:1.1.1").toList),
    entrypoint := some (.str (("main.py").toList)),
    title := none,
    description := none,
    author := some [("Mohammed Ouladi").toList],
    contact := some none,
    repository := some exUrl,
    documentation := none,
    citation := some none }

/-- The record constructed from `exampleRaw`, before the after-hook. -/
def exampleBuilt : Metadata :=
  { specVersion := exVersion, name := ("wipp/threshold").toList,
    version := ⟨("1.1.1").toList⟩, container := ("wipp/threshold:1.1.1").toList,
    entrypoint := .str (("main.py").toList), title := none, description := none,
    author := [⟨("Mohammed Ouladi").toList⟩], contact := none,
    repository := exUrl, documentation := none, citation := none }

/-- The fully validated record from `exampleRaw`, with the title
defaulted to the name. -/
def exampleValidated : Metadata :=
  { exampleBuilt with title := some (("wipp/threshold").toList) }

/-- C1: a field mapping passing all per-field checks whose title is
absent or null validates successfully with `title` set to `name`, and
every successful validation yields a populated title. -/
theorem C1_title_default :
    (∀ (r : RawFields) (m0 : Metadata), Metadata.build r = .ok m0 →
      (r.title = none ∨ r.title = some none) →
      ∃ m, Metadata.validate r = .ok m ∧ m.title = some m.name) ∧
    (∀ (r : RawFields) (m : Metadata), Metadata.validate r = .ok m →
      m.title.isSome = true) := by
  constructor
  · intro r m0 hb ht
    have hti := (Metadata.build_ok_elim hb).2.2.2.2.2.2.2.1
    have hm0t : m0.title = none := by
      rcases ht with ht | ht <;> rw [hti, ht] <;> rfl
    refine ⟨Metadata.default_title m0, Metadata.validate_of_build_ok hb, ?_⟩
    rw [Metadata.default_title_of_none hm0t]
  · intro r m hv
    obtain ⟨m0, hb, rfl⟩ := Metadata.validate_ok_iff.mp hv
    exact Metadata.default_title_isSome m0

/-- Witness for C1 on the concrete example record. -/
theorem C1_title_default_witness :
    ∃ m, Metadata.validate exampleRaw = .ok m ∧ m.title = some m.name :=
  C1_title_default.1 exampleRaw exampleBuilt (by decide) (Or.inl rfl)

/-- C7: validation is idempotent, in that re-validating the field values
of a validated record succeeds and returns an equal record. -/
theorem C7_idempotent (r : RawFields) (m : Metadata)
    (h : Metadata.validate r = .ok m) :
    Metadata.validate (Metadata.toRaw m) = .ok m := by
  obtain ⟨m0, hb, rfl⟩ := Metadata.validate_ok_iff.mp h
  obtain ⟨hsv, hnm, hchknm, hvr, hct, hchkct, hep, hti, hde, ⟨au, hau1, hau2⟩,
    hco, hrp, hdo, ⟨ci, hci1, hci2⟩⟩ := Metadata.build_ok_elim hb
  by_cases ht : m0.title = none
  · rw [Metadata.default_title_of_none ht]
    have hbuild : Metadata.build (Metadata.toRaw { m0 with title := some m0.name }) =
        .ok { m0 with title := some m0.name } :=
      Metadata.build_ok_intro rfl rfl hchknm rfl rfl hchkct rfl rfl rfl
        ⟨_, rfl, constructAuthors_roundtrip hau2⟩ rfl rfl rfl
        ⟨_, rfl, buildCitation_roundtrip hci2⟩
    have hval := Metadata.validate_of_build_ok hbuild
    rw [Metadata.default_title_of_some
      (show ({ m0 with title := some m0.name } : Metadata).title = some m0.name from rfl)] at hval
    exact hval
  · obtain ⟨t, ht2⟩ := Option.ne_none_iff_exists'.mp ht
    rw [Metadata.default_title_of_some ht2]
    have hbuild : Metadata.build (Metadata.toRaw m0) = .ok m0 :=
      Metadata.build_ok_intro rfl rfl hchknm rfl rfl hchkct rfl rfl rfl
        ⟨_, rfl, constructAuthors_roundtrip hau2⟩ rfl rfl rfl
        ⟨_, rfl, buildCitation_roundtrip hci2⟩
    have hval := Metadata.validate_of_build_ok hbuild
    rw [Metadata.default_title_of_some ht2] at hval
    exact hval

/-- Witness for C7 on the concrete example record. -/
theorem C7_idempotent_witness :
    Metadata.validate (Metadata.toRaw exampleValidated) = .ok exampleValidated :=
  C7_idempotent exampleRaw exampleValidated (by decide)

/-- C8: the after-hook changes at most the title; every other field of a
validated record keeps the value established at construction, the title
is the one-step default of the constructed title, and applying the hook
again changes nothing. -/
theorem C8_frame (r : RawFields) (m : Metadata)
    (h : Metadata.validate r = .ok m) :
    ∃ m0, Metadata.build r = .ok m0 ∧
      m.specVersion = m0.specVersion ∧ m.name = m0.name ∧
      m.version = m0.version ∧ m.container = m0.container ∧
      m.entrypoint = m0.entrypoint ∧ m.description = m0.description ∧
      m.author = m0.author ∧ m.contact = m0.contact ∧
      m.repository = m0.repository ∧ m.documentation = m0.documentation ∧
      m.citation = m0.citation ∧
      m = Metadata.default_title m0 ∧
      Metadata.default_title m = m := by
  obtain ⟨m0, hb, rfl⟩ := Metadata.validate_ok_iff.mp h
  refine ⟨m0, hb, ?_⟩
  by_cases ht : m0.title = none
  · rw [Metadata.default_title_of_none ht]
    exact ⟨rfl, rfl, rfl, rfl, rfl, rfl, rfl, rfl, rfl, rfl, rfl, rfl,
      Metadata.default_title_of_some rfl⟩
  · obtain ⟨t, ht2⟩ := Option.ne_none_iff_exists'.mp ht
    rw [Metadata.default_title_of_some ht2]
    exact ⟨rfl, rfl, rfl, rfl, rfl, rfl, rfl, rfl, rfl, rfl, rfl, rfl,
      Metadata.default_title_of_some ht2⟩

/-- Witness for C8 on the concrete example record. -/
theorem C8_frame_witness :
    ∃ m0, Metadata.build exampleRaw = .ok m0 ∧
      exampleValidated.specVersion = m0.specVersion ∧
      exampleValidated.name = m0.name ∧
      exampleValidated.version = m0.version ∧
      exampleValidated.container = m0.container ∧
      exampleValidated.entrypoint = m0.entrypoint ∧
      exampleValidated.description = m0.description ∧
      exampleValidated.author = m0.author ∧
      exampleValidated.contact = m0.contact ∧
      exampleValidated.repository = m0.repository ∧
      exampleValidated.documentation = m0.documentation ∧
      exampleValidated.citation = m0.citation ∧
      exampleValidated = Metadata.default_title m0 ∧
      Metadata.default_title exampleValidated = exampleValidated :=
  C8_frame exampleRaw exampleValidated (by decide)

/-- C9: `contact` and `citation` are required but nullable: a mapping
omitting either key never validates, omitting it from an otherwise valid
mapping fails with that field's error, and an explicit null passes
through to the record unchanged. -/
theorem C9_required_nullable (r : RawFields) (m : Metadata)
    (h : Metadata.validate r = .ok m) :
    (∀ r2 : RawFields, r2.contact = none → ∃ e, Metadata.validate r2 = .error e) ∧
    (∀ r2 : RawFields, r2.citation = none → ∃ e, Metadata.validate r2 = .error e) ∧
    Metadata.validate { r with contact := none } = .error (.typeError (.contact)) ∧
    Metadata.validate { r with contact := some none } = .ok { m with contact := none } ∧
    Metadata.validate { r with citation := none } = .error (.typeError (.citation)) ∧
    Metadata.validate { r with citation := some none } = .ok { m with citation := none } := by
  obtain ⟨m0, hb, rfl⟩ := Metadata.validate_ok_iff.mp h
  obtain ⟨hsv, hnm, hchknm, hvr, hct, hchkct, hep, hti, hde, ⟨au, hau1, hau2⟩,
    hco, hrp, hdo, ⟨ci, hci1, hci2⟩⟩ := Metadata.build_ok_elim hb
  refine ⟨?_, ?_, ?_, ?_, ?_, ?_⟩
  · intro r2 h2
    cases hv : Metadata.validate r2 with
    | error e => exact ⟨e, rfl⟩
    | ok m2 =>
      obtain ⟨m02, hb2, _⟩ := Metadata.validate_ok_iff.mp hv
      have hco2 := (Metadata.build_ok_elim hb2).2.2.2.2.2.2.2.2.2.2.1
      rw [h2] at hco2
      exact Option.noConfusion hco2
  · intro r2 h2
    cases hv : Metadata.validate r2 with
    | error e => exact ⟨e, rfl⟩
    | ok m2 =>
      obtain ⟨m02, hb2, _⟩ := Metadata.validate_ok_iff.mp hv
      obtain ⟨ci2, hci2a, _⟩ := (Metadata.build_ok_elim hb2).2.2.2.2.2.2.2.2.2.2.2.2.2
      rw [h2] at hci2a
      exact Option.noConfusion hci2a
  · apply Metadata.validate_of_build_error
    simp only [Metadata.build, hsv, hnm, hchknm, hvr, hct, hchkct, hep, hau1, hau2]
  · have hbuild : Metadata.build { r with contact := some none } =
        .ok { m0 with contact := none } :=
      Metadata.build_ok_intro hsv hnm hchknm hvr hct hchkct hep hti.symm hde.symm
        ⟨au, hau1, hau2⟩ rfl hrp hdo.symm ⟨ci, hci1, hci2⟩
    have hval := Metadata.validate_of_build_ok hbuild
    rw [Metadata.default_title_set_contact] at hval
    exact hval
  · apply Metadata.validate_of_build_error
    simp only [Metadata.build, hsv, hnm, hchknm, hvr, hct, hchkct, hep, hau1, hau2,
      hco, hrp]
  · have hbuild : Metadata.build { r with citation := some none } =
        .ok { m0 with citation := none } :=
      Metadata.build_ok_intro hsv hnm hchknm hvr hct hchkct hep hti.symm hde.symm
        ⟨au, hau1, hau2⟩ hco hrp hdo.symm ⟨none, rfl, rfl⟩
    have hval := Metadata.validate_of_build_ok hbuild
    rw [Metadata.default_title_set_citation] at hval
    exact hval

/-- Witness for C9 on the concrete example record. -/
theorem C9_required_nullable_witness :
    (∃ e, Metadata.validate { exampleRaw with contact := none } = .error e) ∧
    Metadata.validate { exampleRaw with contact := none } = .error (.typeError (.contact)) ∧
    Metadata.validate { exampleRaw with contact := some none } =
      .ok { exampleValidated with contact := none } ∧
    Metadata.validate { exampleRaw with citation := none } = .error (.typeError (.citation)) ∧
    Metadata.validate { exampleRaw with citation := some none } =
      .ok { exampleValidated with citation := none } := by
  have hc := C9_required_nullable exampleRaw exampleValidated (by decide)
  exact ⟨hc.1 { exampleRaw with contact := none } rfl, hc.2.2.1, hc.2.2.2.1,
    hc.2.2.2.2.1, hc.2.2.2.2.2⟩

/-- The spec's stated DOI condition for C2: starts with `10.` and splits
on `/` into exactly two segments that are both non-empty. -/
def specDOICond (s : Str) : Bool :=
  listStartsWith (("10.").toList) s &&
    (match splitChar ('/') s with
     | [p, q] => (!p.isEmpty) && (!q.isEmpty)
     | _ => false)

/-- Python whitespace characters, as used by `str.split()` with no
separator argument. -/
def pyWhitespaceChar (c : Char) : Bool :=
  (c == ' ') || (c == '\t') || (c == '\n') || (c == '\r') ||
    (c == '\x0b') || (c == '\x0c')

/-- The spec's whitespace-separated token count for C3: split on any
whitespace and discard empty tokens. -/
def wsTokenCount (s : Str) : Nat :=
  ((splitP pyWhitespaceChar s).filter (fun t => !t.isEmpty)).length

/-- The spec's stated name condition for C4: splitting on `/` yields 2
or 3 segments, all non-empty. -/
def specNameCond (s : Str) : Bool :=
  (((splitChar ('/') s).length == 2) || ((splitChar ('/') s).length == 3)) &&
    (splitChar ('/') s).all (fun seg => !seg.isEmpty)

/-- Counterexample to C2: `10./` is accepted by the DOI constructor even
though its suffix (the segment after the slash) is empty, refuting the
claimed non-empty-suffix condition. -/
theorem C2_counterexample :
    DOI.construct (("10./").toList) = .ok ⟨("10./").toList⟩ ∧
    specDOICond (("10./").toList) = false := by
  decide

/-- C2 (amended): the DOI constructor succeeds exactly when the value
starts with `10.` and contains exactly one slash (so the suffix may be
empty; the prefix is automatically non-empty), the prefix check runs
first and its error wins when the value lacks the `10.` start, and the
spec's two cited rejection examples fail as stated. -/
theorem C2_doi_construct :
    (∀ (s : Str) (d : DOI), DOI.construct s = .ok d ↔
      (listStartsWith (("10.").toList) s = true ∧ s.count ('/') = 1) ∧ d = ⟨s⟩) ∧
    (∀ s : Str, listStartsWith (("10.").toList) s = false →
      DOI.construct s = .error (.formatError ("The DOI must start with 10."))) ∧
    DOI.construct (("11.1000/abc").toList) =
      .error (.formatError ("The DOI must start with 10.")) ∧
    DOI.construct (("10.1000/abc/def").toList) =
      .error (.formatError ("The DOI must be in the format <prefix>/<suffix>")) := by
  refine ⟨fun s d => DOI.construct_doi_ok_iff, fun s h => DOI.construct_err_nostart h,
    by decide, by decide⟩

/-- Witness for C2 (amended) on concrete inputs. -/
theorem C2_doi_construct_witness :
    DOI.construct (("10.1000/abc").toList) = .ok ⟨("10.1000/abc").toList⟩ ∧
    DOI.construct (("11.1000/abc").toList) =
      .error (.formatError ("The DOI must start with 10.")) :=
  ⟨(C2_doi_construct.1 (("10.1000/abc").toList) ⟨("10.1000/abc").toList⟩).mpr
      ⟨⟨by decide, by decide⟩, rfl⟩,
    C2_doi_construct.2.1 (("11.1000/abc").toList) (by decide)⟩

/-- Counterexample to C3: `" B"` has one whitespace-separated token yet
the author constructor accepts it, and `"A\tB"` has two
whitespace-separated tokens yet the constructor rejects it, because the
source splits on the single space character and keeps empty segments. -/
theorem C3_counterexample :
    Author.construct ((" B").toList) = .ok ⟨(" B").toList⟩ ∧
    wsTokenCount ((" B").toList) = 1 ∧
    Author.construct (("A\tB").toList) =
      .error (.formatError ("The author must be in the format <first name> <last name>")) ∧
    wsTokenCount (("A\tB").toList) = 2 := by
  decide

/-- C3 (amended): the author constructor succeeds exactly when the value
contains exactly one space character (other whitespace is not a
separator and empty segments count), so no trimming is performed, and
the spec's cited rejection examples fail as stated. -/
theorem C3_author_construct :
    (∀ (s : Str) (a : Author), Author.construct s = .ok a ↔
      s.count (' ') = 1 ∧ a = ⟨s⟩) ∧
    Author.construct (("Madonna").toList) =
      .error (.formatError ("The author must be in the format <first name> <last name>")) ∧
    Author.construct (("A B C").toList) =
      .error (.formatError ("The author must be in the format <first name> <last name>")) := by
  refine ⟨fun s a => Author.construct_author_ok_iff, by decide, by decide⟩

/-- Witness for C3 (amended) on a concrete input. -/
theorem C3_author_construct_witness :
    Author.construct (("Jane Doe").toList) = .ok ⟨("Jane Doe").toList⟩ :=
  (C3_author_construct.1 (("Jane Doe").toList) ⟨("Jane Doe").toList⟩).mpr
    ⟨by decide, rfl⟩

/-- Counterexample to C4: `org/` splits into two segments one of which
is empty, yet the name check accepts it, refuting the claimed
non-empty-segment condition. -/
theorem C4_counterexample :
    Metadata.check_name (("org/").toList) = .ok (("org/").toList) ∧
    specNameCond (("org/").toList) = false := by
  decide

/-- C4 (amended): the name check accepts exactly the strings containing
one or two slashes (segments may be empty), and the spec's four cited
examples behave as stated. -/
theorem C4_check_name :
    (∀ (v w : Str), Metadata.check_name v = .ok w ↔
      (v.count ('/') = 1 ∨ v.count ('/') = 2) ∧ w = v) ∧
    Metadata.check_name (("org").toList) =
      .error (.formatError ("The name must be in the format <organization/user>/<ICT name>")) ∧
    Metadata.check_name (("org/tool").toList) = .ok (("org/tool").toList) ∧
    Metadata.check_name (("org/sub/tool").toList) = .ok (("org/sub/tool").toList) ∧
    Metadata.check_name (("a/b/c/d").toList) =
      .error (.formatError ("The name must be in the format <organization/user>/<ICT name>")) := by
  refine ⟨fun v w => Metadata.check_name_ok_iff, by decide, by decide, by decide, by decide⟩

/-- Witness for C4 (amended) on a concrete input. -/
theorem C4_check_name_witness :
    Metadata.check_name (("org/tool").toList) = .ok (("org/tool").toList) :=
  (C4_check_name.1 (("org/tool").toList) (("org/tool").toList)).mpr
    ⟨Or.inl (by decide), rfl⟩

/-- Counterexample to C5: a container value with a trailing newline is
accepted by the check although it does not match the claimed pattern,
because Python's `$` also matches just before a newline that ends the
string. -/
theorem C5_counterexample :
    Metadata.check_container (("wipp/threshold:1.1.1\n").toList) =
      .ok (("wipp/threshold:1.1.1\n").toList) ∧
    ¬ ContainerShape (("wipp/threshold:1.1.1\n").toList) := by
  constructor
  · decide
  · intro hsh
    have hl : Lang containerRE (("wipp/threshold:1.1.1\n").toList) :=
      Lang_container_iff.mpr hsh
    have hm : reMatch containerRE (("wipp/threshold:1.1.1\n").toList) = true :=
      reMatch_iff.mpr hl
    have hf : reMatch containerRE (("wipp/threshold:1.1.1\n").toList) = false := by
      decide
    rw [hf] at hm
    exact Bool.noConfusion hm

/-- C5 (amended): the container check accepts exactly the strings of the
claimed registry/repo/tag shape, or such a string followed by one
trailing newline (Python `$` semantics), and the spec's three cited
examples behave as stated. -/
theorem C5_check_container :
    (∀ (v w : Str), Metadata.check_container v = .ok w ↔
      ((ContainerShape v ∨ (v.getLast? = some ('\n') ∧ ContainerShape v.dropLast)) ∧
        w = v)) ∧
    Metadata.check_container (("threshold:1.1.1").toList) =
      .ok (("threshold:1.1.1").toList) ∧
    Metadata.check_container (("threshold").toList) =
      .error (.formatError ("The name must be in the format <registry path>/<image repository>:<tag>")) ∧
    Metadata.check_container (("wipp/threshold:1.1.1").toList) =
      .ok (("wipp/threshold:1.1.1").toList) := by
  refine ⟨fun v w => Metadata.check_container_ok_iff, by decide, by decide, by decide⟩

/-- Witness for C5 (amended): the characterization applied at a concrete
decomposition registry `wipp`, slash, repository `threshold`, tag
`1.1.1`. -/
theorem C5_check_container_witness :
    Metadata.check_container (("wipp/threshold:1.1.1").toList) =
      .ok (("wipp/threshold:1.1.1").toList) :=
  (C5_check_container.1 (("wipp/threshold:1.1.1").toList)
      (("wipp/threshold:1.1.1").toList)).mpr
    ⟨Or.inl ⟨("wipp").toList, [('/')], ("threshold").toList, ("1.1.1").toList,
      by decide, by decide, Or.inr rfl, by decide, by decide, by decide, by decide⟩,
      rfl⟩

/-- C6: comparing an `Author` (resp. `DOI`) with `==` against its own
type or a plain string compares the underlying strings, and comparing
against any other type raises `TypeError` instead of returning false. -/
theorem C6_equality :
    (∀ a b : Author,
      (Author.pyEq a (.pyauthor b) = .ok true ↔ a.root = b.root) ∧
      (Author.pyEq a (.pyauthor b) = .ok false ↔ ¬ a.root = b.root)) ∧
    (∀ (a : Author) (s : Str),
      (Author.pyEq a (.pystr s) = .ok true ↔ a.root = s) ∧
      (Author.pyEq a (.pystr s) = .ok false ↔ ¬ a.root = s)) ∧
    (∀ (a : Author) (v : PyVal), (∀ s, v ≠ .pystr s) → (∀ b, v ≠ .pyauthor b) →
      Author.pyEq a v = .error ("invalid type for comparison.")) ∧
    (∀ d e : DOI,
      (DOI.pyEq d (.pydoi e) = .ok true ↔ d.root = e.root) ∧
      (DOI.pyEq d (.pydoi e) = .ok false ↔ ¬ d.root = e.root)) ∧
    (∀ (d : DOI) (s : Str),
      (DOI.pyEq d (.pystr s) = .ok true ↔ d.root = s) ∧
      (DOI.pyEq d (.pystr s) = .ok false ↔ ¬ d.root = s)) ∧
    (∀ (d : DOI) (v : PyVal), (∀ s, v ≠ .pystr s) → (∀ e, v ≠ .pydoi e) →
      DOI.pyEq d v = .error ("invalid type for comparison.")) := by
  refine ⟨?_, ?_, ?_, ?_, ?_, ?_⟩
  · intro a b
    constructor <;> simp [Author.pyEq]
  · intro a s
    constructor <;> simp [Author.pyEq]
  · intro a v h1 h2
    cases v with
    | pystr s => exact absurd rfl (h1 s)
    | pyauthor b => exact absurd rfl (h2 b)
    | pydoi d => rfl
    | pyint n => rfl
    | pynone => rfl
  · intro d e
    constructor <;> simp [DOI.pyEq]
  · intro d s
    constructor <;> simp [DOI.pyEq]
  · intro d v h1 h2
    cases v with
    | pystr s => exact absurd rfl (h1 s)
    | pyauthor a => rfl
    | pydoi e => exact absurd rfl (h2 e)
    | pyint n => rfl
    | pynone => rfl

/-- Witness for C6 on the spec's own concrete examples. -/
theorem C6_equality_witness :
    Author.pyEq ⟨("Jane Doe").toList⟩ (.pystr (("Jane Doe").toList)) = .ok true ∧
    Author.pyEq ⟨("Jane Doe").toList⟩ (.pyauthor ⟨("Jane Doe").toList⟩) = .ok true ∧
    Author.pyEq ⟨("Jane Doe").toList⟩ (.pyint 42) =
      .error ("invalid type for comparison.") :=
  ⟨((C6_equality.2.1 ⟨("Jane Doe").toList⟩ (("Jane Doe").toList)).1).mpr rfl,
    ((C6_equality.1 ⟨("Jane Doe").toList⟩ ⟨("Jane Doe").toList⟩).1).mpr rfl,
    C6_equality.2.2.1 ⟨("Jane Doe").toList⟩ (.pyint 42)
      (fun s h => PyVal.noConfusion h) (fun b h => PyVal.noConfusion h)⟩

/-- C10: the container check accepts strings that begin with a slash and
an empty registry, both in general and on the concrete example
`/threshold:1.1.1`. -/
theorem C10_empty_registry :
    (∀ P T : Str, P ≠ [] → (∀ c ∈ P, isRepoChar c = true) →
      T ≠ [] → (∀ c ∈ T, isTagChar c = true) →
      Metadata.check_container (('/') :: (P ++ (':') :: T)) =
        .ok (('/') :: (P ++ (':') :: T))) ∧
    Metadata.check_container (("/threshold:1.1.1").toList) =
      .ok (("/threshold:1.1.1").toList) := by
  constructor
  · intro P T hPne hP hTne hT
    apply Metadata.check_container_ok_iff.mpr
    refine ⟨Or.inl ⟨[], [('/')], P, T, ?_, ?_, Or.inr rfl, hPne, hP, hTne, hT⟩, rfl⟩
    · simp
    · simp
  · decide

/-- Witness for C10: the general statement instantiated at repository
`threshold` and tag `1.1.1`. -/
theorem C10_empty_registry_witness :
    Metadata.check_container (('/') :: ((("threshold").toList) ++ (':') :: (("1.1.1").toList))) =
      .ok (('/') :: ((("threshold").toList) ++ (':') :: (("1.1.1").toList))) :=
  C10_empty_registry.1 (("threshold").toList) (("1.1.1").toList)
    (by decide) (by decide) (by decide) (by decide)

end ICT
